import Mathlib

/-!
Verification of the `proximal-optimize` library.

The hill-climbing optimizer (`src/lib.rs`), the vector arithmetic helpers
(`src/misc.rs`) and the Nesterov stepper (`src/utils.rs`) are shallowly
embedded below.  `f64` values manipulated by the hill climber and the vector
helpers are modelled as rationals (the claims under study are about control
flow and exact update formulas, not rounding); the Nesterov stepper, whose
behaviour involves `sqrt`, is modelled over the reals.  The objective
function's output type is kept generic: any type `T` together with a partial
comparison `pcmp : T → T → Option Ordering` models Rust's
`T : PartialOrd` via `partial_cmp`.
-/

namespace ProximalOptimize

/-- The error enum from `src/lib.rs` (lines 296-306). -/
inductive ProximalOptimizerErr
  | ParameterLengthMismatch
  | StartUnorderable
  | SolutionNoBetter
deriving DecidableEq

/-- Per-dimension search parameters (`struct Parameters`, lib.rs lines 279-284). -/
structure Parameters where
  expansion_ratio : ℚ
  compression_ratio : ℚ
  step_size : ℚ
deriving DecidableEq

/-- `DEFAULT_EXPANSION_RATIO = 1.5`, `DEFAULT_COMPRESSION_RATIO = 0.5`,
`DEFAULT_INITIAL_STEP_SIZE = 1.0` (lib.rs lines 40-42, 286-292). -/
def Parameters.default : Parameters :=
  { expansion_ratio := 3/2, compression_ratio := 1/2, step_size := 1 }

/-- The optimizer struct (lib.rs lines 69-73). -/
structure ProximalOptimizer where
  parameters : List Parameters
  iterations : ℕ
  maximize : Bool
deriving DecidableEq

/-- `ProximalOptimizer::new` (lib.rs lines 78-86): `num_parameters` default
parameter triples, `DEFAULT_NUM_ITERATIONS = 100`, minimizing. -/
def ProximalOptimizer.new (num_parameters : ℕ) : ProximalOptimizer :=
  { parameters := List.replicate num_parameters Parameters.default,
    iterations := 100,
    maximize := false }

/-- `ProximalOptimizer::initial_step_size` (lib.rs lines 110-114): the scalar
step-size setter writes `step_size` for every dimension. -/
def ProximalOptimizer.initial_step_size (o : ProximalOptimizer) (step_size : ℚ) :
    ProximalOptimizer :=
  { o with parameters := o.parameters.map fun p => { p with step_size := step_size } }

/-- `ProximalOptimizer::step_expansion_ratio` (lib.rs lines 131-135).  Note:
the body of the Rust function is
`param.compression_ratio = step_expansion_ratio;` — it writes the
compression ratio field, not the expansion ratio field. -/
def ProximalOptimizer.step_expansion_ratio (o : ProximalOptimizer) (r : ℚ) :
    ProximalOptimizer :=
  { o with parameters := o.parameters.map fun p => { p with compression_ratio := r } }

/-- `ProximalOptimizer::step_expansion_ratios` (lib.rs lines 139-149): the
per-dimension setter writes the expansion ratio field, after a length check. -/
def ProximalOptimizer.step_expansion_ratios (o : ProximalOptimizer) (rs : List ℚ) :
    Except ProximalOptimizerErr ProximalOptimizer :=
  if rs.length ≠ o.parameters.length then
    .error .ParameterLengthMismatch
  else
    .ok { o with parameters :=
      (List.range o.parameters.length).map fun i =>
        { o.parameters.getD i Parameters.default with
            expansion_ratio := rs.getD i 0 } }

/-- The direction-aware comparison of lib.rs lines 224-233: the raw
`partial_cmp` result is reversed when minimizing (`!self.maximize`). -/
def dirCmp (maximize : Bool) (c : Option Ordering) : Option Ordering :=
  match c with
  | some ordering => if !maximize then some ordering.swap else some ordering
  | none => none

/-- The mutable search state inside `optimize`'s inner (per-dimension) loop:
the working copy of the parameters (the clone made at lib.rs line 196),
`current_pos`, `candidate`, and — as instrumentation — the list of arguments
passed to the objective function so far, in call order. -/
structure SearchState where
  params : List Parameters
  current_pos : List ℚ
  candidate : List ℚ
  calls : List (List ℚ)
deriving DecidableEq

/-- One pass of the per-dimension loop body (lib.rs lines 219-264) for
dimension `x_i`: perturb, evaluate, compare direction-aware against
`current_fit`, update step size (and possibly position), restore the
candidate.  `orig` is `self.parameters` — the expansion branch (line 248) and
the equal branch (line 256) read their ratios from `self.parameters`, while
the worse/incomparable branch (line 242) reads the working copy's. -/
def dimStep {T : Type} (maximize : Bool) (orig : List Parameters)
    (pcmp : T → T → Option Ordering) (func : List ℚ → T) (current_fit : T)
    (s : SearchState) (x_i : ℕ) : SearchState :=
  let old_val := s.candidate.getD x_i 0
  let p := s.params.getD x_i Parameters.default
  let cand := s.candidate.set x_i (s.current_pos.getD x_i 0 + p.step_size)
  let test_fit := func cand
  let cmp := dirCmp maximize (pcmp test_fit current_fit)
  let params :=
    match cmp with
    | some .lt | none =>
        s.params.set x_i
          { p with step_size := p.step_size * (-1) * p.compression_ratio }
    | some .gt =>
        s.params.set x_i
          { p with step_size :=
              p.step_size * (orig.getD x_i Parameters.default).expansion_ratio }
    | some .eq =>
        s.params.set x_i
          { p with step_size :=
              p.step_size * (orig.getD x_i Parameters.default).compression_ratio }
  let current_pos :=
    match cmp with
    | some .gt => s.current_pos.set x_i (cand.getD x_i 0)
    | _ => s.current_pos
  { params := params,
    current_pos := current_pos,
    candidate := cand.set x_i old_val,
    calls := s.calls ++ [cand] }

/-- The first `k` passes of the per-dimension loop, in order
`x_i = 0, 1, …, k-1`. -/
def innerPasses {T : Type} (maximize : Bool) (orig : List Parameters)
    (pcmp : T → T → Option Ordering) (func : List ℚ → T) (current_fit : T)
    (s : SearchState) (k : ℕ) : SearchState :=
  (List.range k).foldl (dimStep maximize orig pcmp func current_fit) s

/-- State carried between iterations of the main training loop:
working parameters, current position, the last value assigned to
`current_fit`, and the instrumentation trace of objective calls. -/
structure OuterState (T : Type) where
  params : List Parameters
  current_pos : List ℚ
  current_fit : T
  calls : List (List ℚ)

/-- One iteration of the main training loop (lib.rs lines 210-265):
re-evaluate `current_fit` at the current position, reset the candidate to the
current position, then run the per-dimension loop for `x_i = 0, …, x_n - 1`. -/
def iterStep {T : Type} (o : ProximalOptimizer)
    (pcmp : T → T → Option Ordering) (func : List ℚ → T) (x_n : ℕ)
    (s : OuterState T) : OuterState T :=
  let current_fit := func s.current_pos
  let inner := innerPasses o.maximize o.parameters pcmp func current_fit
    { params := s.params,
      current_pos := s.current_pos,
      candidate := s.current_pos,
      calls := s.calls ++ [s.current_pos] } x_n
  { params := inner.params,
    current_pos := inner.current_pos,
    current_fit := current_fit,
    calls := inner.calls }

/-- `n` iterations of the main training loop, first iteration first. -/
def runIters {T : Type} (o : ProximalOptimizer)
    (pcmp : T → T → Option Ordering) (func : List ℚ → T) (x_n : ℕ) :
    ℕ → OuterState T → OuterState T
  | 0, s => s
  | n + 1, s => runIters o pcmp func x_n n (iterStep o pcmp func x_n s)

/-- The state after the whole training loop of an `optimize` call that passed
both entry checks: a working clone of `self.parameters` (lib.rs line 196),
`current_pos = start` (lines 197-198), `current_fit = func(start)` (line 188),
with the two evaluations of lines 187-188 already on the trace. -/
def finalState {T : Type} (o : ProximalOptimizer)
    (pcmp : T → T → Option Ordering) (start : List ℚ) (func : List ℚ → T) :
    OuterState T :=
  runIters o pcmp func start.length o.iterations
    { params := o.parameters,
      current_pos := start,
      current_fit := func start,
      calls := [start, start] }

/-- `ProximalOptimizer::optimize` (lib.rs lines 172-276), instrumented with
the list of arguments passed to the objective function.  The length check
comes first (line 182), then the objective is evaluated twice at `start`
(lines 187-188) and the self-comparability check runs (lines 189-192), then
the training loop, then the final comparison of `current_fit` against
`start_fit` (lines 269-275). -/
def optimizeTraced {T : Type} (o : ProximalOptimizer)
    (pcmp : T → T → Option Ordering) (start : List ℚ) (func : List ℚ → T) :
    Except ProximalOptimizerErr (List ℚ) × List (List ℚ) :=
  if start.length ≠ o.parameters.length then
    (.error .ParameterLengthMismatch, [])
  else
    let start_fit := func start
    if pcmp start_fit start_fit = none then
      (.error .StartUnorderable, [start, start])
    else
      let fin := finalState o pcmp start func
      match pcmp fin.current_fit start_fit, o.maximize with
      | some .gt, true => (.ok fin.current_pos, fin.calls)
      | some .lt, false => (.ok fin.current_pos, fin.calls)
      | _, _ => (.error .SolutionNoBetter, fin.calls)

/-- `ProximalOptimizer::optimize`: just the returned `Result`. -/
def optimize {T : Type} (o : ProximalOptimizer)
    (pcmp : T → T → Option Ordering) (start : List ℚ) (func : List ℚ → T) :
    Except ProximalOptimizerErr (List ℚ) :=
  (optimizeTraced o pcmp start func).1

/-- A call `self.optimize(start, func)` viewed together with the receiver it
leaves behind.  `optimize` borrows the receiver immutably (`&self`, lib.rs
line 172) and works on a clone of `self.parameters` (line 196), so the
instance after the call is the instance before the call. -/
def ProximalOptimizer.optimizeCall {T : Type} (o : ProximalOptimizer)
    (pcmp : T → T → Option Ordering) (start : List ℚ) (func : List ℚ → T) :
    (Except ProximalOptimizerErr (List ℚ) × List (List ℚ)) × ProximalOptimizer :=
  (optimizeTraced o pcmp start func, o)

/-! Vector arithmetic from `src/misc.rs`.  Each function first checks the
lengths, then fills a fresh vector of length `a.len()` position by
position; the loop writing `target[i] = a[i] ⊕ b[i]` for `i in 0..a.len()`
is rendered as a map over `List.range a.length`. -/

/-- `vec_add` (misc.rs lines 8-19). -/
def vec_add (a b : List ℚ) : Except ProximalOptimizerErr (List ℚ) :=
  if a.length ≠ b.length then
    .error .ParameterLengthMismatch
  else
    .ok ((List.range a.length).map fun i => a.getD i 0 + b.getD i 0)

/-- `vec_sub` (misc.rs lines 22-33). -/
def vec_sub (a b : List ℚ) : Except ProximalOptimizerErr (List ℚ) :=
  if a.length ≠ b.length then
    .error .ParameterLengthMismatch
  else
    .ok ((List.range a.length).map fun i => a.getD i 0 - b.getD i 0)

/-- `vec_inner_prod` (misc.rs lines 63-74): after the length check, a running
sum of `row_vec[i] * col_vec[i]` over `i in 0..row_vec.len()`. -/
def vec_inner_prod (a b : List ℚ) : Except ProximalOptimizerErr ℚ :=
  if a.length ≠ b.length then
    .error .ParameterLengthMismatch
  else
    .ok ((List.range a.length).foldl (fun sum i => sum + a.getD i 0 * b.getD i 0) 0)

/-! The Nesterov stepper from `src/utils.rs`, modelled over the reals. -/

/-- `struct NesterovStepper` (utils.rs lines 18-21). -/
structure NesterovStepper where
  t : ℝ
  accelerated : Bool

/-- `NesterovStepper::new` (utils.rs lines 24-27): `t` starts at `1.0`. -/
def NesterovStepper.new (accelerated : Bool) : NesterovStepper :=
  { t := 1, accelerated := accelerated }

/-- `NesterovStepper::omega` (utils.rs lines 29-38), as a state transformer:
returns the emitted `om` together with the stepper after the call. -/
noncomputable def NesterovStepper.omega (s : NesterovStepper) : ℝ × NesterovStepper :=
  if s.accelerated then
    let t_ := 0.5 * (1 + Real.sqrt (4 * s.t * s.t + 1))
    ((s.t - 1) / t_, { s with t := t_ })
  else
    (0, s)

/-- The stepper after `n` calls to `omega`, starting from
`NesterovStepper::new(true)` (acceleration enabled). -/
noncomputable def nesterovIter : ℕ → NesterovStepper
  | 0 => NesterovStepper.new true
  | n + 1 => ((nesterovIter n).omega).2

/-- The value returned by the `(n+1)`-th call to `omega` on a stepper
constructed with acceleration enabled. -/
noncomputable def omegaSeq (n : ℕ) : ℝ :=
  ((nesterovIter n).omega).1

/-- Modelled from the spec: the PGM driver is not among the sources; its
extrapolation step (spec §4.3 step 2) reads "If ω > 0, compute an
extrapolated point x̃ = X + ω·(X − X_prev); otherwise x̃ = X". -/
noncomputable def pgmExtrapolate (om : ℝ) (x x_prev : List ℝ) : List ℝ :=
  if 0 < om then
    (List.range x.length).map fun i => x.getD i 0 + om * (x.getD i 0 - x_prev.getD i 0)
  else
    x

/-- The momentum update `t_ = 0.5 * (1.0 + (4.0 * t * t + 1.0).sqrt())` of
utils.rs line 31, as a function of `t`. -/
noncomputable def tNext (t : ℝ) : ℝ := 0.5 * (1 + Real.sqrt (4 * t * t + 1))

/-- The trial candidate the per-dimension pass for dimension `i` evaluates
(lib.rs lines 220-222): the candidate vector with coordinate `i` replaced by
`current_pos[i] + step_size[i]`. -/
def trialCandidate (s : SearchState) (i : ℕ) : List ℚ :=
  s.candidate.set i (s.current_pos.getD i 0 + (s.params.getD i Parameters.default).step_size)

/-! Concrete instances used by counterexamples and witnesses. -/

/-- The partial comparison of ordinary (non-NaN) `f64` outputs: a total
order, modelled on rationals. -/
def pcmpQ (a b : ℚ) : Option Ordering :=
  if a < b then some .lt else if b < a then some .gt else some .eq

/-- A partial comparison under which no two values compare, modelling an
objective that returns NaN-like output. -/
def pcmpNone : ℚ → ℚ → Option Ordering := fun _ _ => none

/-- The objective `f(x) = x[0]`. -/
def funId (v : List ℚ) : ℚ := v.getD 0 0

/-- A one-dimensional optimizer, budget of one iteration, maximizing. -/
def oOne : ProximalOptimizer :=
  { ProximalOptimizer.new 1 with iterations := 1, maximize := true }

/-! Helper lemmas about `List.set` and `List.getD`. -/

theorem getD_set_self {α : Type} (l : List α) (i : ℕ) (v d : α) (h : i < l.length) :
    (l.set i v).getD i d = v := by
  simp [List.getD_eq_getElem?_getD, List.getElem?_set_self', List.getElem?_eq_getElem h]

theorem getD_set_ne {α : Type} (l : List α) {i j : ℕ} (h : i ≠ j) (v d : α) :
    (l.set i v).getD j d = l.getD j d := by
  simp [List.getD_eq_getElem?_getD, List.getElem?_set_ne h]

theorem set_getD_self {α : Type} (l : List α) (i : ℕ) (d : α) :
    l.set i (l.getD i d) = l := by
  by_cases h : i < l.length
  · apply List.ext_getElem?
    intro j
    by_cases hj : i = j
    · subst hj
      simp [List.getElem?_set_self', List.getElem?_eq_getElem h,
        List.getD_eq_getElem?_getD]
    · simp [List.getElem?_set_ne hj]
  · exact List.set_eq_of_length_le (Nat.le_of_not_lt h)

/-! Structural lemmas about one pass of the per-dimension loop. -/

section DimStepLemmas

variable {T : Type} (m : Bool) (orig : List Parameters)
  (pcmp : T → T → Option Ordering) (func : List ℚ → T) (fit : T)

theorem dimStep_calls (s : SearchState) (i : ℕ) :
    (dimStep m orig pcmp func fit s i).calls = s.calls ++ [trialCandidate s i] := rfl

theorem dimStep_candidate (s : SearchState) (i : ℕ) :
    (dimStep m orig pcmp func fit s i).candidate = s.candidate := by
  show (trialCandidate s i).set i (s.candidate.getD i 0) = s.candidate
  rw [trialCandidate, List.set_set, set_getD_self]

theorem dimStep_pos_cases (s : SearchState) (i : ℕ) :
    (dimStep m orig pcmp func fit s i).current_pos = s.current_pos ∨
      ∃ v, (dimStep m orig pcmp func fit s i).current_pos = s.current_pos.set i v := by
  rcases hd : dirCmp m (pcmp (func (trialCandidate s i)) fit) with - | o
  · left
    simp [dimStep, trialCandidate] at hd ⊢
    rw [hd]
  · rcases o with - | - | -
    · left
      simp [dimStep, trialCandidate] at hd ⊢
      rw [hd]
    · left
      simp [dimStep, trialCandidate] at hd ⊢
      rw [hd]
    · right
      refine ⟨(trialCandidate s i).getD i 0, ?_⟩
      simp [dimStep, trialCandidate] at hd ⊢
      rw [hd]

theorem dimStep_params_cases (s : SearchState) (i : ℕ) :
    ∃ p, (dimStep m orig pcmp func fit s i).params = s.params.set i p := by
  rcases hd : dirCmp m (pcmp (func (trialCandidate s i)) fit) with - | o
  · refine ⟨{ s.params.getD i Parameters.default with
        step_size := (s.params.getD i Parameters.default).step_size * (-1) *
          (s.params.getD i Parameters.default).compression_ratio }, ?_⟩
    simp [dimStep, trialCandidate] at hd ⊢
    rw [hd]
  · rcases o with - | - | -
    · refine ⟨{ s.params.getD i Parameters.default with
          step_size := (s.params.getD i Parameters.default).step_size * (-1) *
            (s.params.getD i Parameters.default).compression_ratio }, ?_⟩
      simp [dimStep, trialCandidate] at hd ⊢
      rw [hd]
    · refine ⟨{ s.params.getD i Parameters.default with
          step_size := (s.params.getD i Parameters.default).step_size *
            (orig.getD i Parameters.default).compression_ratio }, ?_⟩
      simp [dimStep, trialCandidate] at hd ⊢
      rw [hd]
    · refine ⟨{ s.params.getD i Parameters.default with
          step_size := (s.params.getD i Parameters.default).step_size *
            (orig.getD i Parameters.default).expansion_ratio }, ?_⟩
      simp [dimStep, trialCandidate] at hd ⊢
      rw [hd]

theorem dimStep_pos_getD (s : SearchState) {i j : ℕ} (h : i ≠ j) (d : ℚ) :
    (dimStep m orig pcmp func fit s i).current_pos.getD j d = s.current_pos.getD j d := by
  rcases dimStep_pos_cases m orig pcmp func fit s i with hp | ⟨v, hp⟩
  · rw [hp]
  · rw [hp, getD_set_ne _ h]

theorem dimStep_params_getD (s : SearchState) {i j : ℕ} (h : i ≠ j) (d : Parameters) :
    (dimStep m orig pcmp func fit s i).params.getD j d = s.params.getD j d := by
  rcases dimStep_params_cases m orig pcmp func fit s i with ⟨p, hp⟩
  rw [hp, getD_set_ne _ h]

theorem innerPasses_succ (s : SearchState) (k : ℕ) :
    innerPasses m orig pcmp func fit s (k + 1) =
      dimStep m orig pcmp func fit (innerPasses m orig pcmp func fit s k) k := by
  simp [innerPasses, List.range_succ]

theorem innerPasses_candidate (s : SearchState) (k : ℕ) :
    (innerPasses m orig pcmp func fit s k).candidate = s.candidate := by
  induction k with
  | zero => rfl
  | succ k ih => rw [innerPasses_succ, dimStep_candidate, ih]

theorem innerPasses_pos_getD (s : SearchState) {k j : ℕ} (h : k ≤ j) (d : ℚ) :
    (innerPasses m orig pcmp func fit s k).current_pos.getD j d =
      s.current_pos.getD j d := by
  induction k with
  | zero => rfl
  | succ k ih =>
      rw [innerPasses_succ,
        dimStep_pos_getD m orig pcmp func fit _ (Nat.ne_of_lt (Nat.lt_of_lt_of_le (Nat.lt_succ_self k) h)) d,
        ih (Nat.le_of_succ_le h)]

theorem innerPasses_calls (s : SearchState) (k : ℕ) :
    (innerPasses m orig pcmp func fit s k).calls =
      s.calls ++ (List.range k).map fun j =>
        s.candidate.set j (s.current_pos.getD j 0 +
          ((innerPasses m orig pcmp func fit s j).params.getD j Parameters.default).step_size) := by
  induction k with
  | zero => simp [innerPasses]
  | succ k ih =>
      rw [innerPasses_succ, dimStep_calls, ih, List.range_succ, List.map_append,
        List.append_assoc]
      simp only [List.map_cons, List.map_nil, trialCandidate,
        innerPasses_candidate m orig pcmp func fit s k,
        innerPasses_pos_getD m orig pcmp func fit s (Nat.le_refl k) 0]

end DimStepLemmas

/-! Structural lemmas about the main training loop. -/

theorem runIters_succ_shift {T : Type} (o : ProximalOptimizer)
    (pcmp : T → T → Option Ordering) (func : List ℚ → T) (x_n n : ℕ)
    (s : OuterState T) :
    runIters o pcmp func x_n (n + 1) s =
      iterStep o pcmp func x_n (runIters o pcmp func x_n n s) := by
  induction n generalizing s with
  | zero => rfl
  | succ n ih =>
      show runIters o pcmp func x_n (n + 1) (iterStep o pcmp func x_n s) = _
      rw [ih]
      rfl

/-! Remaining helper lemmas. -/

theorem foldl_add_range (g : ℕ → ℚ) (n : ℕ) (c : ℚ) :
    (List.range n).foldl (fun sum i => sum + g i) c = c + ∑ i ∈ Finset.range n, g i := by
  induction n generalizing c with
  | zero => simp
  | succ n ih =>
      rw [List.range_succ, List.foldl_append, ih, Finset.sum_range_succ]
      simp only [List.foldl_cons, List.foldl_nil]
      ring

theorem getD_map_range {α : Type} (f : ℕ → α) (n i : ℕ) (d : α) (h : i < n) :
    ((List.range n).map f).getD i d = f i := by
  rw [List.getD_eq_getElem?_getD, List.getElem?_map, List.getElem?_range h]
  rfl

/-! Claim theorems. -/

/-- C8: for vectors of unequal length, `vec_add`, `vec_sub` and
`vec_inner_prod` fail with `ParameterLengthMismatch`; for vectors of equal
length they succeed, `vec_add`/`vec_sub` producing a vector of the same
length with elementwise sums (resp. differences), and `vec_inner_prod`
producing the sum of the elementwise products. -/
theorem c8_vector_arithmetic (a b : List ℚ) :
    (a.length ≠ b.length →
      vec_add a b = .error .ParameterLengthMismatch ∧
      vec_sub a b = .error .ParameterLengthMismatch ∧
      vec_inner_prod a b = .error .ParameterLengthMismatch) ∧
    (a.length = b.length →
      (∃ r, vec_add a b = .ok r ∧ r.length = a.length ∧
        ∀ i, i < a.length → r.getD i 0 = a.getD i 0 + b.getD i 0) ∧
      (∃ r, vec_sub a b = .ok r ∧ r.length = a.length ∧
        ∀ i, i < a.length → r.getD i 0 = a.getD i 0 - b.getD i 0) ∧
      vec_inner_prod a b = .ok (∑ i ∈ Finset.range a.length, a.getD i 0 * b.getD i 0)) := by
  constructor
  · intro h
    refine ⟨?_, ?_, ?_⟩ <;> simp [vec_add, vec_sub, vec_inner_prod, h]
  · intro h
    refine ⟨⟨(List.range a.length).map fun i => a.getD i 0 + b.getD i 0, ?_, ?_, ?_⟩,
      ⟨(List.range a.length).map fun i => a.getD i 0 - b.getD i 0, ?_, ?_, ?_⟩, ?_⟩
    · simp [vec_add, h]
    · simp
    · intro i hi
      exact getD_map_range _ _ _ _ hi
    · simp [vec_sub, h]
    · simp
    · intro i hi
      exact getD_map_range _ _ _ _ hi
    · rw [vec_inner_prod, if_neg (by simp [h]), foldl_add_range]
      norm_num

/-- C8 witness: concrete unequal-length failure and equal-length success. -/
theorem c8_witness :
    (vec_add [(1 : ℚ)] [] = .error .ParameterLengthMismatch ∧
     vec_sub [(1 : ℚ)] [] = .error .ParameterLengthMismatch ∧
     vec_inner_prod [(1 : ℚ)] [] = .error .ParameterLengthMismatch) ∧
    vec_inner_prod [(1 : ℚ), 2] [3, 4] =
      .ok (∑ i ∈ Finset.range ([(1 : ℚ), 2].length),
        [(1 : ℚ), 2].getD i 0 * [(3 : ℚ), 4].getD i 0) :=
  ⟨(c8_vector_arithmetic [1] []).1 (by decide),
   ((c8_vector_arithmetic [(1 : ℚ), 2] [3, 4]).2 rfl).2.2⟩

/-- C6: an `optimize` call with a start vector of the wrong length fails with
`ParameterLengthMismatch` and performs no objective evaluation (empty call
trace); when the lengths match but the start fitness does not compare with
itself, the call fails with `StartUnorderable` after exactly the two
evaluations at `start` and before any iteration of the search loop runs. -/
theorem c6_entry_checks {T : Type} (o : ProximalOptimizer)
    (pcmp : T → T → Option Ordering) (start : List ℚ) (func : List ℚ → T) :
    (start.length ≠ o.parameters.length →
      optimizeTraced o pcmp start func = (.error .ParameterLengthMismatch, [])) ∧
    (start.length = o.parameters.length →
      pcmp (func start) (func start) = none →
        optimizeTraced o pcmp start func = (.error .StartUnorderable, [start, start])) := by
  constructor
  · intro h
    simp [optimizeTraced, h]
  · intro h hn
    rw [optimizeTraced, if_neg (by simp [h])]
    simp [hn]

/-- C6 witness: a length-mismatched call and a NaN-like start fitness. -/
theorem c6_witness :
    optimizeTraced (ProximalOptimizer.new 2) pcmpQ [0] funId =
      (.error .ParameterLengthMismatch, []) ∧
    optimizeTraced (ProximalOptimizer.new 1) pcmpNone [0] funId =
      (.error .StartUnorderable, [[0], [0]]) :=
  ⟨(c6_entry_checks (ProximalOptimizer.new 2) pcmpQ [0] funId).1 (by decide),
   (c6_entry_checks (ProximalOptimizer.new 1) pcmpNone [0] funId).2 (by decide) rfl⟩

/-- C3: evaluating the scalar expansion-ratio setter on a fresh
one-dimensional optimizer with the value 2.  The claim (and the Rust doc
comment on `step_expansion_ratio`) say the expansion ratio becomes 2 with
the compression ratio untouched; the code instead leaves the expansion
ratio at its default 1.5 and overwrites the compression ratio with 2. -/
theorem c3_scalar_expansion_setter_bug :
    ((ProximalOptimizer.new 1).step_expansion_ratio 2).parameters =
      [{ expansion_ratio := 3/2, compression_ratio := 2, step_size := 1 }] := by
  norm_num [ProximalOptimizer.step_expansion_ratio, ProximalOptimizer.new,
    Parameters.default]

/-- C9: with a pure objective whose start fitness compares equal to itself,
an iteration budget of 0 or 1 always yields `SolutionNoBetter`: the
`current_fit` used by the final comparison is assigned before the last
iteration's position updates, so it still equals the starting fitness. -/
theorem c9_small_budget {T : Type} (o : ProximalOptimizer)
    (pcmp : T → T → Option Ordering) (start : List ℚ) (func : List ℚ → T)
    (hlen : start.length = o.parameters.length)
    (heq : pcmp (func start) (func start) = some .eq)
    (hit : o.iterations = 0 ∨ o.iterations = 1) :
    optimize o pcmp start func = .error .SolutionNoBetter := by
  have hfit : (finalState o pcmp start func).current_fit = func start := by
    rcases hit with h | h <;> rw [finalState, h] <;> rfl
  have hord : ¬ pcmp (func start) (func start) = none := by rw [heq]; simp
  simp only [optimize, optimizeTraced]
  rw [if_neg (by simp [hlen]), if_neg hord, hfit, heq]

/-- C9 witness: one dimension, objective `x[0]`, maximizing, budget 1. -/
theorem c9_witness : optimize oOne pcmpQ [0] funId = .error .SolutionNoBetter :=
  c9_small_budget oOne pcmpQ [0] funId (by decide) (by decide) (Or.inr rfl)

/-- C1 counterexample: one dimension, objective `x[0]`, maximizing, budget 1,
start `[0]`.  The search moves to `[1]`, whose fitness strictly improves on
the start (`some .gt` while maximizing), yet the call returns
`SolutionNoBetter` — so success is not decided by comparing the final
position's fitness against the starting fitness, contradicting the claim. -/
theorem c1_counterexample :
    optimize oOne pcmpQ [0] funId = .error .SolutionNoBetter ∧
    (finalState oOne pcmpQ [0] funId).current_pos = [1] ∧
    oOne.maximize = true ∧
    pcmpQ (funId [1]) (funId [0]) = some .gt := by
  refine ⟨?_, ?_, rfl, by norm_num [pcmpQ, funId]⟩
  · norm_num [optimize, optimizeTraced, finalState, runIters, iterStep, innerPasses,
      dimStep, dirCmp, pcmpQ, funId, oOne, ProximalOptimizer.new, Parameters.default,
      List.range_succ]
    simp
  · norm_num [finalState, runIters, iterStep, innerPasses, dimStep, dirCmp, pcmpQ,
      funId, oOne, ProximalOptimizer.new, Parameters.default, List.range_succ]

/-- C1 amended: after a budget of `n+1` iterations, the fitness used by the
final comparison is the objective at the position held when the last
iteration began (not the final position's fitness); the call returns `Ok`
with the computed position exactly when that value strictly improves on the
starting fitness in the configured direction, and `SolutionNoBetter`
otherwise. -/
theorem c1_final_comparison_amended {T : Type} (o : ProximalOptimizer)
    (pcmp : T → T → Option Ordering) (start : List ℚ) (func : List ℚ → T) (n : ℕ)
    (hlen : start.length = o.parameters.length)
    (hord : ¬ pcmp (func start) (func start) = none)
    (hiter : o.iterations = n + 1) :
    (finalState o pcmp start func).current_fit =
      func (runIters o pcmp func start.length n
        { params := o.parameters, current_pos := start,
          current_fit := func start, calls := [start, start] }).current_pos ∧
    ((o.maximize = true ∧
        pcmp (finalState o pcmp start func).current_fit (func start) = some .gt) ∨
     (o.maximize = false ∧
        pcmp (finalState o pcmp start func).current_fit (func start) = some .lt) →
      optimize o pcmp start func = .ok (finalState o pcmp start func).current_pos) ∧
    (¬ ((o.maximize = true ∧
        pcmp (finalState o pcmp start func).current_fit (func start) = some .gt) ∨
      (o.maximize = false ∧
        pcmp (finalState o pcmp start func).current_fit (func start) = some .lt)) →
      optimize o pcmp start func = .error .SolutionNoBetter) := by
  refine ⟨?_, ?_, ?_⟩
  · rw [finalState, hiter, runIters_succ_shift]
    rfl
  · intro h
    simp only [optimize, optimizeTraced]
    rw [if_neg (by simp [hlen]), if_neg hord]
    rcases h with ⟨hm, hc⟩ | ⟨hm, hc⟩ <;> rw [hc, hm]
  · intro hno
    simp only [optimize, optimizeTraced]
    rw [if_neg (by simp [hlen]), if_neg hord]
    rcases hc : pcmp (finalState o pcmp start func).current_fit (func start) with - | ord
    · cases hm : o.maximize <;> rfl
    · rcases ord with - | - | -
      · cases hm : o.maximize with
        | false => exact absurd (Or.inr ⟨hm, hc⟩) hno
        | true => rfl
      · cases hm : o.maximize <;> rfl
      · cases hm : o.maximize with
        | false => rfl
        | true => exact absurd (Or.inl ⟨hm, hc⟩) hno

/-- C1 amended witness: the concrete run of the counterexample, seen through
the amended statement — the compared fitness is the one at the position
before the last iteration, and since it is not a strict improvement the call
reports `SolutionNoBetter`. -/
theorem c1_amended_witness :
    (finalState oOne pcmpQ [0] funId).current_fit =
      funId (runIters oOne pcmpQ funId 1 0
        { params := oOne.parameters, current_pos := [0],
          current_fit := funId [0], calls := [[0], [0]] }).current_pos ∧
    optimize oOne pcmpQ [0] funId = .error .SolutionNoBetter := by
  have h := c1_final_comparison_amended oOne pcmpQ [0] funId 0 (by decide) (by decide) rfl
  refine ⟨h.1, h.2.2 ?_⟩
  norm_num [finalState, runIters, iterStep, innerPasses, dimStep, dirCmp, pcmpQ,
    funId, oOne, ProximalOptimizer.new, Parameters.default, List.range_succ]
  decide

/-- C4 counterexample: in a concrete run the search does rescale a step size
(the working parameters end different from the stored ones), yet the
optimizer instance a call leaves behind is exactly the instance it started
with — `optimize` takes `&self` and mutates only a clone, so the instance's
own per-dimension parameter state is not mutated, contradicting the claim. -/
theorem c4_counterexample :
    (ProximalOptimizer.optimizeCall oOne pcmpQ [0] funId).2 = oOne ∧
    (finalState oOne pcmpQ [0] funId).params ≠ oOne.parameters := by
  refine ⟨rfl, ?_⟩
  norm_num [finalState, runIters, iterStep, innerPasses, dimStep, dirCmp, pcmpQ,
    funId, oOne, ProximalOptimizer.new, Parameters.default, List.range_succ,
    Parameters.mk.injEq]

/-- C4 amended: during `optimize` the search state that is mutated
destructively across iterations is a local clone of the per-dimension
parameters (lib.rs line 196); the optimizer instance itself is borrowed
immutably and is identical before and after every call. -/
theorem c4_frame_amended :
    (∀ (T : Type) (o : ProximalOptimizer) (pcmp : T → T → Option Ordering)
        (start : List ℚ) (func : List ℚ → T),
      (ProximalOptimizer.optimizeCall o pcmp start func).2 = o) ∧
    (finalState oOne pcmpQ [0] funId).params ≠ oOne.parameters := by
  refine ⟨fun _ _ _ _ _ => rfl, ?_⟩
  norm_num [finalState, runIters, iterStep, innerPasses, dimStep, dirCmp, pcmpQ,
    funId, oOne, ProximalOptimizer.new, Parameters.default, List.range_succ,
    Parameters.mk.injEq]

/-- C5: within one iteration, the objective is evaluated first at the
iteration's snapshot position (whose value is what every trial is compared
against, being the `current_fit` of the iteration) and then, for each
dimension `j` in order, at the snapshot with only coordinate `j` perturbed
by dimension `j`'s current step size — accepted moves of earlier dimensions
in the same iteration never appear in a later dimension's trial. -/
theorem c5_snapshot_trials {T : Type} (o : ProximalOptimizer)
    (pcmp : T → T → Option Ordering) (func : List ℚ → T) (x_n : ℕ)
    (s : OuterState T) :
    (iterStep o pcmp func x_n s).current_fit = func s.current_pos ∧
    (iterStep o pcmp func x_n s).calls =
      s.calls ++ s.current_pos :: ((List.range x_n).map fun j =>
        s.current_pos.set j (s.current_pos.getD j 0 +
          ((innerPasses o.maximize o.parameters pcmp func (func s.current_pos)
              { params := s.params, current_pos := s.current_pos,
                candidate := s.current_pos, calls := s.calls ++ [s.current_pos] }
              j).params.getD j Parameters.default).step_size)) := by
  constructor
  · rfl
  · show (innerPasses o.maximize o.parameters pcmp func (func s.current_pos)
        { params := s.params, current_pos := s.current_pos,
          candidate := s.current_pos, calls := s.calls ++ [s.current_pos] } x_n).calls = _
    rw [innerPasses_calls]
    simp [List.append_assoc]

/-- C2: one per-dimension pass compares the trial's fitness direction-aware
against the iteration's `current_fit` and acts by case: incomparable or
strictly worse — position unchanged, step size multiplied by −1 times the
dimension's compression ratio; strictly better — only coordinate `i` is set
to the candidate value and the step size is multiplied by the expansion
ratio (sign preserved when the ratio is positive); exactly equal — position
unchanged, step size multiplied by the compression ratio without negation
(sign preserved when the ratio is positive). -/
theorem c2_dimension_comparison {T : Type} (m : Bool) (orig : List Parameters)
    (pcmp : T → T → Option Ordering) (func : List ℚ → T) (fit : T)
    (s : SearchState) (i : ℕ)
    (hic : i < s.candidate.length)
    (her : (orig.getD i Parameters.default).expansion_ratio =
      (s.params.getD i Parameters.default).expansion_ratio)
    (hcr : (orig.getD i Parameters.default).compression_ratio =
      (s.params.getD i Parameters.default).compression_ratio) :
    (dirCmp m (pcmp (func (trialCandidate s i)) fit) = none ∨
     dirCmp m (pcmp (func (trialCandidate s i)) fit) = some .lt →
      (dimStep m orig pcmp func fit s i).current_pos = s.current_pos ∧
      (dimStep m orig pcmp func fit s i).params = s.params.set i
        { s.params.getD i Parameters.default with
            step_size := (s.params.getD i Parameters.default).step_size * (-1) *
              (s.params.getD i Parameters.default).compression_ratio }) ∧
    (dirCmp m (pcmp (func (trialCandidate s i)) fit) = some .gt →
      (dimStep m orig pcmp func fit s i).current_pos =
        s.current_pos.set i (s.current_pos.getD i 0 +
          (s.params.getD i Parameters.default).step_size) ∧
      (dimStep m orig pcmp func fit s i).params = s.params.set i
        { s.params.getD i Parameters.default with
            step_size := (s.params.getD i Parameters.default).step_size *
              (s.params.getD i Parameters.default).expansion_ratio } ∧
      (0 < (s.params.getD i Parameters.default).expansion_ratio →
        (0 < (s.params.getD i Parameters.default).step_size →
          0 < (s.params.getD i Parameters.default).step_size *
            (s.params.getD i Parameters.default).expansion_ratio) ∧
        ((s.params.getD i Parameters.default).step_size < 0 →
          (s.params.getD i Parameters.default).step_size *
            (s.params.getD i Parameters.default).expansion_ratio < 0))) ∧
    (dirCmp m (pcmp (func (trialCandidate s i)) fit) = some .eq →
      (dimStep m orig pcmp func fit s i).current_pos = s.current_pos ∧
      (dimStep m orig pcmp func fit s i).params = s.params.set i
        { s.params.getD i Parameters.default with
            step_size := (s.params.getD i Parameters.default).step_size *
              (s.params.getD i Parameters.default).compression_ratio } ∧
      (0 < (s.params.getD i Parameters.default).compression_ratio →
        (0 < (s.params.getD i Parameters.default).step_size →
          0 < (s.params.getD i Parameters.default).step_size *
            (s.params.getD i Parameters.default).compression_ratio) ∧
        ((s.params.getD i Parameters.default).step_size < 0 →
          (s.params.getD i Parameters.default).step_size *
            (s.params.getD i Parameters.default).compression_ratio < 0))) := by
  refine ⟨?_, ?_, ?_⟩
  · rintro (hd | hd) <;>
      · constructor <;>
          · simp [dimStep, trialCandidate] at hd ⊢
            rw [hd]
  · intro hd
    refine ⟨?_, ?_, ?_⟩
    · have hv : (trialCandidate s i).getD i 0 = s.current_pos.getD i 0 +
          (s.params.getD i Parameters.default).step_size :=
        getD_set_self _ _ _ _ hic
      rw [← hv]
      simp [dimStep, trialCandidate] at hd ⊢
      rw [hd]
    · rw [← her]
      simp [dimStep, trialCandidate] at hd ⊢
      rw [hd]
    · intro hpe
      exact ⟨fun h0 => mul_pos h0 hpe, fun h0 => mul_neg_of_neg_of_pos h0 hpe⟩
  · intro hd
    refine ⟨?_, ?_, ?_⟩
    · simp [dimStep, trialCandidate] at hd ⊢
      rw [hd]
    · rw [← hcr]
      simp [dimStep, trialCandidate] at hd ⊢
      rw [hd]
    · intro hpc
      exact ⟨fun h0 => mul_pos h0 hpc, fun h0 => mul_neg_of_neg_of_pos h0 hpc⟩

/-- C2 witness: a strictly better trial (maximizing `x[0]` from `[0]` with
step 1) moves coordinate 0 to the candidate value 1. -/
theorem c2_witness :
    (dimStep true [Parameters.default] pcmpQ funId 0
      { params := [Parameters.default], current_pos := [0], candidate := [0],
        calls := [] } 0).current_pos = [1] := by
  have h := c2_dimension_comparison true [Parameters.default] pcmpQ funId 0
    { params := [Parameters.default], current_pos := [0], candidate := [0],
      calls := [] } 0 (by decide) rfl rfl
  have hgt : dirCmp true (pcmpQ (funId (trialCandidate
      { params := [Parameters.default], current_pos := [0], candidate := [0],
        calls := [] } 0)) 0) = some .gt := by
    norm_num [dirCmp, pcmpQ, funId, trialCandidate, Parameters.default]
  rw [(h.2.1 hgt).1]
  norm_num [Parameters.default]

/-! Facts about the Nesterov momentum recurrence. -/

theorem sqrt_sq_arg (t : ℝ) : Real.sqrt (4 * t * t + 1) ^ 2 = 4 * t * t + 1 :=
  Real.sq_sqrt (by nlinarith [sq_nonneg t])

theorem one_le_sqrt_arg (t : ℝ) : 1 ≤ Real.sqrt (4 * t * t + 1) := by
  have h1 : (1 : ℝ) = Real.sqrt 1 := Real.sqrt_one.symm
  rw [h1]
  exact Real.sqrt_le_sqrt (by nlinarith [sq_nonneg t])

theorem tNext_identity (t : ℝ) : tNext t * (tNext t - 1) = t * t := by
  have h := sqrt_sq_arg t
  rw [tNext]
  nlinarith [h]

theorem one_le_tNext (t : ℝ) : 1 ≤ tNext t := by
  have h := one_le_sqrt_arg t
  rw [tNext]
  nlinarith [h]

theorem lt_tNext {t : ℝ} (h : 1 ≤ t) : t < tNext t := by
  by_contra hs
  push_neg at hs
  have h2 : tNext t * (tNext t - 1) ≤ t * (t - 1) :=
    mul_le_mul hs (by linarith) (by linarith [one_le_tNext t]) (by linarith)
  have h3 := tNext_identity t
  nlinarith

theorem tNext_lt {t : ℝ} (h : 1 ≤ t) : tNext t < t + 1 := by
  by_contra hs
  push_neg at hs
  have h2 : (t + 1) * t ≤ tNext t * (tNext t - 1) :=
    mul_le_mul hs (by linarith) (by linarith) (by linarith [one_le_tNext t])
  have h3 := tNext_identity t
  nlinarith

theorem tNext_sub_bound {t : ℝ} (h : 1 ≤ t) :
    (tNext t - t) * (2 * t + 1) < t + 1 := by
  have hid : (tNext t - t) * (tNext t + t) = tNext t := by
    linear_combination tNext_identity t
  have h1 : tNext t < t + 1 := tNext_lt h
  have key : 0 < (1 - (tNext t - t)) * (1 - (tNext t - t)) :=
    mul_pos (by linarith) (by linarith)
  nlinarith [hid, key]

theorem nesterovIter_accelerated (n : ℕ) : (nesterovIter n).accelerated = true := by
  induction n with
  | zero => rfl
  | succ n ih => simp [nesterovIter, NesterovStepper.omega, ih]

theorem nesterovIter_t_succ (n : ℕ) :
    (nesterovIter (n + 1)).t = tNext (nesterovIter n).t := by
  have h := nesterovIter_accelerated n
  simp [nesterovIter, NesterovStepper.omega, h, tNext]

theorem one_le_nesterovIter_t (n : ℕ) : 1 ≤ (nesterovIter n).t := by
  induction n with
  | zero => norm_num [nesterovIter, NesterovStepper.new]
  | succ n ih =>
      rw [nesterovIter_t_succ]
      exact one_le_tNext _

theorem nesterovIter_t_lt_succ (n : ℕ) :
    (nesterovIter n).t < (nesterovIter (n + 1)).t := by
  rw [nesterovIter_t_succ]
  exact lt_tNext (one_le_nesterovIter_t n)

theorem nesterovIter_t_strictMono : StrictMono fun n => (nesterovIter n).t :=
  strictMono_nat_of_lt_succ nesterovIter_t_lt_succ

theorem one_lt_nesterovIter_t (n : ℕ) : 1 < (nesterovIter (n + 1)).t := by
  have h0 : (nesterovIter 0).t = 1 := by norm_num [nesterovIter, NesterovStepper.new]
  have h := nesterovIter_t_strictMono (Nat.succ_pos n)
  simp only [h0] at h
  exact h

theorem omegaSeq_eq (n : ℕ) :
    omegaSeq n = ((nesterovIter n).t - 1) / (nesterovIter (n + 1)).t := by
  have h := nesterovIter_accelerated n
  rw [nesterovIter_t_succ, omegaSeq]
  simp [NesterovStepper.omega, h, tNext]

theorem omegaSeq_lt_one (n : ℕ) : omegaSeq n < 1 := by
  rw [omegaSeq_eq]
  have h1 := one_le_nesterovIter_t (n + 1)
  have h2 := nesterovIter_t_lt_succ n
  rw [div_lt_one (by linarith)]
  linarith [one_le_nesterovIter_t n]

theorem omegaSeq_zero : omegaSeq 0 = 0 := by
  rw [omegaSeq_eq]
  norm_num [nesterovIter, NesterovStepper.new]

theorem omegaSeq_lt_succ (n : ℕ) : omegaSeq n < omegaSeq (n + 1) := by
  cases n with
  | zero =>
      rw [omegaSeq_zero, omegaSeq_eq]
      apply div_pos
      · have := one_lt_nesterovIter_t 0
        linarith
      · linarith [one_le_nesterovIter_t 2]
  | succ m =>
      rw [omegaSeq_eq, omegaSeq_eq]
      have h1 : 1 < (nesterovIter (m + 1)).t := one_lt_nesterovIter_t m
      have hab : (nesterovIter (m + 1)).t < (nesterovIter (m + 2)).t :=
        nesterovIter_t_lt_succ (m + 1)
      have hbc : (nesterovIter (m + 2)).t < (nesterovIter (m + 3)).t :=
        nesterovIter_t_lt_succ (m + 2)
      have hb0 : (0 : ℝ) < (nesterovIter (m + 2)).t := by linarith
      have hc0 : (0 : ℝ) < (nesterovIter (m + 3)).t := by linarith
      rw [div_lt_div_iff₀ hb0 hc0]
      have hidb : (nesterovIter (m + 2)).t * ((nesterovIter (m + 2)).t - 1) =
          (nesterovIter (m + 1)).t * (nesterovIter (m + 1)).t := by
        rw [nesterovIter_t_succ (m + 1)]
        exact tNext_identity _
      have f1 : ((nesterovIter (m + 2)).t - (nesterovIter (m + 1)).t) *
          (2 * (nesterovIter (m + 1)).t + 1) < (nesterovIter (m + 1)).t + 1 := by
        have hf := tNext_sub_bound (le_of_lt h1)
        rwa [← nesterovIter_t_succ (m + 1)] at hf
      have f2 : ((nesterovIter (m + 3)).t - (nesterovIter (m + 2)).t) *
          (2 * (nesterovIter (m + 2)).t + 1) < (nesterovIter (m + 2)).t + 1 := by
        have hf := tNext_sub_bound (le_of_lt (lt_trans h1 hab))
        rwa [← nesterovIter_t_succ (m + 2)] at hf
      have hba1 : (nesterovIter (m + 2)).t - (nesterovIter (m + 1)).t < 1 := by
        by_contra hge
        push_neg at hge
        have hx : 2 * (nesterovIter (m + 1)).t + 1 ≤
            ((nesterovIter (m + 2)).t - (nesterovIter (m + 1)).t) *
              (2 * (nesterovIter (m + 1)).t + 1) :=
          le_mul_of_one_le_left (by linarith) hge
        linarith
      have hcb : ((nesterovIter (m + 3)).t - (nesterovIter (m + 2)).t) *
          (2 * (nesterovIter (m + 1)).t + 1) < (nesterovIter (m + 2)).t + 1 := by
        have hmono : ((nesterovIter (m + 3)).t - (nesterovIter (m + 2)).t) *
            (2 * (nesterovIter (m + 1)).t + 1) ≤
            ((nesterovIter (m + 3)).t - (nesterovIter (m + 2)).t) *
              (2 * (nesterovIter (m + 2)).t + 1) :=
          mul_le_mul_of_nonneg_left (by linarith) (by linarith)
        linarith
      have hca : ((nesterovIter (m + 3)).t - (nesterovIter (m + 1)).t) *
          (2 * (nesterovIter (m + 1)).t + 1) < 2 * (nesterovIter (m + 1)).t + 3 := by
        nlinarith [f1, hcb, hba1]
      have k1 : ((nesterovIter (m + 1)).t - 1) *
          (((nesterovIter (m + 3)).t - (nesterovIter (m + 1)).t) *
            (2 * (nesterovIter (m + 1)).t + 1)) <
          ((nesterovIter (m + 1)).t - 1) * (2 * (nesterovIter (m + 1)).t + 3) :=
        mul_lt_mul_of_pos_left hca (by linarith)
      have k2 : (((nesterovIter (m + 1)).t - 1) *
          ((nesterovIter (m + 3)).t - (nesterovIter (m + 1)).t)) *
            (2 * (nesterovIter (m + 1)).t + 1) <
          (nesterovIter (m + 1)).t * (2 * (nesterovIter (m + 1)).t + 1) := by
        nlinarith [k1]
      have k3 : ((nesterovIter (m + 1)).t - 1) *
          ((nesterovIter (m + 3)).t - (nesterovIter (m + 1)).t) <
          (nesterovIter (m + 1)).t :=
        lt_of_mul_lt_mul_right k2 (by linarith)
      nlinarith [k3, hidb]

theorem omegaSeq_strictMono : StrictMono omegaSeq :=
  strictMono_nat_of_lt_succ omegaSeq_lt_succ

/-- C7: with acceleration enabled each call computes
`t_ = 0.5·(1 + sqrt(4·t² + 1))`, returns `ω = (t − 1)/t_` and replaces `t`
by `t_`; across any sequence of calls the momentum is never negative and
strictly increases, and the returned ω values strictly increase, start
below 1 and never reach 1. -/
theorem c7_nesterov_momentum :
    (∀ s : NesterovStepper, s.accelerated = true →
      (s.omega).1 = (s.t - 1) / (0.5 * (1 + Real.sqrt (4 * s.t * s.t + 1))) ∧
      ((s.omega).2).t = 0.5 * (1 + Real.sqrt (4 * s.t * s.t + 1)) ∧
      ((s.omega).2).accelerated = true) ∧
    (∀ n, 0 ≤ (nesterovIter n).t) ∧
    (∀ n, (nesterovIter n).t < (nesterovIter (n + 1)).t) ∧
    (∀ m n, m < n → omegaSeq m < omegaSeq n) ∧
    omegaSeq 0 < 1 ∧
    (∀ n, omegaSeq n < 1) :=
  ⟨fun s hs => by simp [NesterovStepper.omega, hs],
   fun n => by linarith [one_le_nesterovIter_t n],
   nesterovIter_t_lt_succ,
   fun _ _ h => omegaSeq_strictMono h,
   omegaSeq_lt_one 0,
   omegaSeq_lt_one⟩

/-- C7 witness: the per-call formula on a fresh accelerated stepper, and the
momentum/ω facts at the first indices. -/
theorem c7_witness :
    ((NesterovStepper.new true).omega).1 =
      ((NesterovStepper.new true).t - 1) /
        (0.5 * (1 + Real.sqrt (4 * (NesterovStepper.new true).t *
          (NesterovStepper.new true).t + 1))) ∧
    omegaSeq 0 < omegaSeq 1 ∧
    0 ≤ (nesterovIter 3).t :=
  ⟨(c7_nesterov_momentum.1 (NesterovStepper.new true) rfl).1,
   c7_nesterov_momentum.2.2.2.1 0 1 (by norm_num),
   c7_nesterov_momentum.2.1 3⟩

/-- C10: the first call to `omega` on a freshly constructed stepper returns
exactly 0 even with acceleration enabled (since `t` starts at 1 and
`ω = (t − 1)/t_`), so the first accelerated iteration of the (spec-modelled)
PGM extrapolation step leaves the iterate unchanged. -/
theorem c10_first_call_zero :
    ((NesterovStepper.new true).omega).1 = 0 ∧
    ∀ (x x_prev : List ℝ),
      pgmExtrapolate ((NesterovStepper.new true).omega).1 x x_prev = x := by
  have h0 : ((NesterovStepper.new true).omega).1 = 0 := by
    simp [NesterovStepper.new, NesterovStepper.omega]
  refine ⟨h0, fun x x_prev => ?_⟩
  rw [h0]
  simp [pgmExtrapolate]

end ProximalOptimize
